import Mathlib

/-
Verification of the rksmanager persistence layer.

Shallow embedding of the core of `rksmanager/database.py` and
`rksmanager/database/models.py`:

* the time-of-day column codec (`convert_timeofday`),
* the schema-migration engine (`Database.apply_migrations`),
* the collection reconciler (`Database._update_collection`) together with
  the primary-marker maintenance performed by `DbObject.save`,
* the change-tracked entity model (`DbObject`, `Collection.__get__`,
  `DbObject.db_changed`, `Database._dynamic_insert`,
  `Database._dynamic_update`).

Python dict/set iteration order is unspecified by the language; wherever the
source iterates a set we determinize to first-insertion order, and wherever it
iterates `dict.keys()` we determinize to the static column order.  Every
property proved below is either independent of that order or is stated for the
determinized order.
-/

namespace Rks

/-! ## Time-of-day codec (`convert_timeofday`, database.py lines 43-53) -/

/-- Value of a digit string, most significant digit first, as computed by
Python's `int()` on a string of ASCII digits. -/
def digitsVal (l : List Char) : Nat :=
  l.foldl (fun acc c => acc * 10 + (c.toNat - 48)) 0

/-- Python `int(s)` for a string of ASCII digits; `none` on the empty string
or on any non-digit character.  (Python's `int` also tolerates surrounding
whitespace and an explicit sign; no stored time-of-day value exercised by any
claim has those, and we model them as parse failures.) -/
def parseDigits (l : List Char) : Option Nat :=
  if l ≠ [] ∧ l.all Char.isDigit then some (digitsVal l) else none

/-- Python `'{:0<6.6}'.format(s)`: truncate `s` to at most 6 characters, then
left-justify in a field of width 6 filled with `'0'` (i.e. pad on the right
with zeros up to exactly 6 characters). -/
def padTo6 (l : List Char) : List Char :=
  let t := l.take 6
  t ++ List.replicate (6 - t.length) '0'

/-- The fractional-seconds branch of `convert_timeofday`:
`int('{:0<6.6}'.format(fractional_part))`. -/
def fracToMicroseconds (frac : List Char) : Option Nat :=
  parseDigits (padTo6 frac)

/-- Python `bytes.split(sep)` for a one-character separator: split at every
occurrence of the separator; adjacent separators and separators at either end
contribute empty pieces, and the empty input yields one empty piece. -/
def splitOnChar (c : Char) : List Char → List (List Char)
  | [] => [[]]
  | x :: xs =>
    let r := splitOnChar c xs
    if x = c then [] :: r else (x :: r.headD []) :: r.tail

/-- Result type of the codec, mirroring `datetime.time(h, m, s, us)`. -/
structure TimeOfDay where
  hours : Nat
  minutes : Nat
  seconds : Nat
  microseconds : Nat
  deriving Repr, DecidableEq

/-- `convert_timeofday` (database.py lines 43-51): split the stored text on
`"."`; split the first part on `":"` and parse hours, minutes and seconds
from it (failing unless it has exactly three integer components, as the
Python tuple unpacking does); when the first split produced exactly two
parts, right-pad/truncate the second part to 6 characters and parse it as
microseconds, otherwise use 0.  The final range checks mirror the validation
done by the `datetime.time` constructor. -/
def convert_timeofday (val : String) : Option TimeOfDay :=
  let timepartFull := splitOnChar '.' val.toList
  match (splitOnChar ':' (timepartFull.headD [])).mapM parseDigits with
  | some [hours, minutes, seconds] =>
    match (if timepartFull.length = 2
           then fracToMicroseconds (timepartFull.getD 1 [])
           else some 0) with
    | some microseconds =>
      if hours < 24 ∧ minutes < 60 ∧ seconds < 60 ∧ microseconds < 1000000 then
        some ⟨hours, minutes, seconds, microseconds⟩
      else none
    | none => none
  | _ => none

/-! ## Migration engine (`Database.apply_migrations`, database.py lines 109-173)

The store is reduced to the data the engine manipulates: the persisted
`user_version` counter and the (abstract) accumulated effect of the executed
DDL statements.  Statement execution is the SQLite engine, an external
dependency; it is a parameter `exec : String → MigState → Option MigState`
(`none` models the statement raising).  The migration scripts arrive already
parsed: `Database.apply_migrations` discovers files, matches their names
against `0*([0-9]+)-.*\.sql` to extract the version, and splits the file text
on `";"`; a `MigrationScript` below is one such matched file, its extracted
version together with its list of statements, in directory-iteration order. -/

/-- The observable store state touched by the migration engine. -/
structure MigState where
  userVersion : Nat
  applied : List String
  deriving Repr, DecidableEq

/-- Statement execution, supplied by the underlying SQLite engine. -/
abbrev ExecStmt := String → MigState → Option MigState

/-- The exceptions `apply_migrations` can raise. -/
inductive MigrationError where
  /-- "Migration script ... version higher than expected." -/
  | versionTooHigh (scriptVersion : Nat)
  /-- An exception raised by the SQLite engine while executing a statement. -/
  | statementFailed (stmt : String)
  /-- "SQLite user_version lower than expected after running migration
  scripts." -/
  | versionLowerThanExpected
  deriving Repr, DecidableEq

/-- Run the statements of one script in order, stopping at the first failure
(database.py lines 156-157). -/
def runStatements (exec : ExecStmt) : List String → MigState → Except MigrationError MigState
  | [], s => Except.ok s
  | stmt :: rest, s =>
    match exec stmt s with
    | none => Except.error (MigrationError.statementFailed stmt)
    | some s' => runStatements exec rest s'

/-- One migration script: the version extracted from its file name and its
statements (the file text split on `";"`). -/
structure MigrationScript where
  version : Nat
  statements : List String
  deriving Repr, DecidableEq

/-- One iteration of the migration loop (database.py lines 138-165): re-read
the current version; skip the script if its version is not greater; raise if
it overshoots the expected version or is not exactly `current + 1`; otherwise
execute its statements and then advance `user_version` to the script's
version. -/
def processScript (exec : ExecStmt) (expected : Nat) (s : MigState)
    (script : MigrationScript) : Except MigrationError MigState :=
  if script.version ≤ s.userVersion then Except.ok s
  else if expected < script.version ∨ script.version ≠ s.userVersion + 1 then
    Except.error (MigrationError.versionTooHigh script.version)
  else
    match runStatements exec script.statements s with
    | Except.error e => Except.error e
    | Except.ok s' => Except.ok { s' with userVersion := script.version }

/-- The `for migration_file in migrations_dir.iterdir()` loop, over the
already-parsed scripts in directory-iteration order. -/
def migrationLoop (exec : ExecStmt) (expected : Nat) :
    List MigrationScript → MigState → Except MigrationError MigState
  | [], s => Except.ok s
  | script :: rest, s =>
    match processScript exec expected s script with
    | Except.error e => Except.error e
    | Except.ok s' => migrationLoop exec expected rest s'

/-- `Database.apply_migrations` (database.py lines 128-173): open one
transaction, run the loop, then require the final `user_version` to be at
least `expected`; any exception rolls the transaction back (the committed
state stays `db`) and propagates, otherwise commit once.  The result is the
committed store state paired with the propagated exception, if any. -/
def apply_migrations (exec : ExecStmt) (expected : Nat)
    (scripts : List MigrationScript) (db : MigState) :
    MigState × Option MigrationError :=
  match migrationLoop exec expected scripts db with
  | Except.error e => (db, some e)
  | Except.ok s =>
    if s.userVersion < expected then
      (db, some MigrationError.versionLowerThanExpected)
    else (s, none)

/-- A concrete SQLite stand-in for witnesses: every statement other than
`"BOOM"` succeeds and records itself, `"BOOM"` raises. -/
def execRecord : ExecStmt := fun stmt s =>
  if stmt = "BOOM" then none else some { s with applied := s.applied ++ [stmt] }

/-! ## Collection reconciler (`Database._update_collection`, database.py
lines 301-337) and the primary-marker maintenance of `DbObject.save`
(models.py lines 81-106)

Items are handled at tuple level (`List α`); the single-column call sites
wrap each item in a one-element tuple (database.py lines 303-306, models.py
lines 97-98), modelled by `wrapSingles`.  Python converts the two item
sequences to `set`s; set iteration order is unspecified, so we determinize it
to first-insertion order (`dedupFirst`). -/

section Reconciler

variable {α : Type} [DecidableEq α]

/-- `[(x,) for x in items]`: wrap single-column items into 1-tuples. -/
def wrapSingles (items : List α) : List (List α) :=
  items.map (fun x => [x])

/-- Python `set(l)` determinized to first-insertion iteration order:
duplicates beyond the first occurrence are dropped. -/
def dedupFirst : List α → List α
  | [] => []
  | x :: xs => x :: (dedupFirst xs).filter (fun y => decide (y ≠ x))

/-- `remove_tuples = old_tuples - new_tuples` (set difference). -/
def removeTuples (old new : List (List α)) : List (List α) :=
  (dedupFirst old).filter (fun t => decide (t ∉ new))

/-- `add_tuples = new_tuples - old_tuples` (set difference). -/
def addTuples (old new : List (List α)) : List (List α) :=
  (dedupFirst new).filter (fun t => decide (t ∉ old))

/-- One operation of the reconciliation plan.  Each operation's WHERE clause
additionally restricts to `filter_column = filter_value` (the owning entity's
rows); the row semantics below therefore acts on that entity's rows only. -/
inductive CollectionOp (α : Type) where
  /-- `_dynamic_update`: rewrite the row whose value columns equal the second
  tuple so that they equal the first tuple. -/
  | update (columnValues : List α) (whereValues : List α)
  /-- `_dynamic_delete`: delete the row whose value columns equal the tuple. -/
  | delete (whereValues : List α)
  /-- `_dynamic_insert`: insert a row with the tuple's column values. -/
  | insert (values : List α)
  deriving Repr, DecidableEq

/-- The `itertools.zip_longest(remove_tuples, add_tuples)` loop of
`_update_collection` (database.py lines 315-337): while both lists have
elements left, swap an old tuple for a new one; leftover old tuples are
deleted; leftover new tuples are inserted. -/
def zipLongestOps : List (List α) → List (List α) → List (CollectionOp α)
  | [], ns => ns.map CollectionOp.insert
  | o :: os, [] => CollectionOp.delete o :: zipLongestOps os []
  | o :: os, n :: ns => CollectionOp.update n o :: zipLongestOps os ns

/-- `Database._update_collection` as a plan generator: the sequence of
dynamic statements it executes for the given old and new item sequences. -/
def update_collection (old new : List (List α)) : List (CollectionOp α) :=
  zipLongestOps (removeTuples old new) (addTuples old new)

/-- One statement executed by `DbObject.save` for a single collection:
either a reconciliation-plan operation or one of the two primary-marker
maintenance statements. -/
inductive SaveOp (α : Type) where
  /-- a `_update_collection` plan operation -/
  | collectionOp (op : CollectionOp α)
  /-- `_dynamic_update` setting the primary column to NULL on all of the
  entity's rows (models.py lines 86-92) -/
  | clearPrimary
  /-- `_dynamic_update` setting the primary column to true on the entity's
  row whose value columns equal the tuple (models.py lines 96-106) -/
  | setPrimary (whereValues : List α)
  deriving Repr, DecidableEq

/-- The statements `DbObject.save` executes for one touched collection
(models.py lines 73-106): the reconciliation plan, then — when the collection
has a primary column and the new item sequence is non-empty — a clear of all
previous primary flags (only when the old item sequence was non-empty)
followed by setting the primary flag on the row matching the first new
item. -/
def save_collection_ops (hasPrimary : Bool) (old new : List (List α)) :
    List (SaveOp α) :=
  (update_collection old new).map SaveOp.collectionOp ++
    (if hasPrimary && !new.isEmpty then
      (if !old.isEmpty then [SaveOp.clearPrimary] else []) ++
        [SaveOp.setPrimary (new.headD [])]
    else [])

/-- A persisted child row of one entity's collection: its value columns and
its primary-marker column (`false` models NULL/0, `true` models 1). -/
structure DbRow (α : Type) where
  values : List α
  primary : Bool
  deriving Repr, DecidableEq

/-- Effect of one reconciliation operation on the entity's child rows
(the WHERE clauses all include `filter_column = filter_value`, so only this
entity's rows are in scope).  An update statement rewrites every row matching
the WHERE tuple and leaves the primary column alone; a delete removes every
matching row; an insert appends a row whose primary column is NULL. -/
def applyCollectionOp (rows : List (DbRow α)) : CollectionOp α → List (DbRow α)
  | CollectionOp.update cv wv =>
    rows.map (fun r => if r.values = wv then { r with values := cv } else r)
  | CollectionOp.delete wv =>
    rows.filter (fun r => decide (r.values ≠ wv))
  | CollectionOp.insert v => rows ++ [⟨v, false⟩]

/-- Effect of one save statement on the entity's child rows. -/
def applySaveOp (rows : List (DbRow α)) : SaveOp α → List (DbRow α)
  | SaveOp.collectionOp op => applyCollectionOp rows op
  | SaveOp.clearPrimary => rows.map (fun r => { r with primary := false })
  | SaveOp.setPrimary wv =>
    rows.map (fun r => if r.values = wv then { r with primary := true } else r)

/-- Execute a list of save statements in order. -/
def applySaveOps (rows : List (DbRow α)) (ops : List (SaveOp α)) :
    List (DbRow α) :=
  ops.foldl applySaveOp rows

end Reconciler

/-! ## Change-tracked entity model (`DbObject`, models.py) and the dynamic
statement builders (database.py lines 390-479)

An entity's in-memory state is its identity together with the two overlay
dictionaries `_new_values` (in-memory edits and cached working copies) and
`_db_values` (last-known persisted baseline).  Dictionaries are modelled as
functions `String → Option α` (`none` = key absent).  Python's `dict.get`
returns `None` both for an absent key and for a key stored as `None`; the
value domain `α` is abstract here and has no distinguished null, so the
corner case of assigning Python `None` to a field with no baseline entry is
outside this embedding (no claim exercises it). -/

section Entity

variable {α : Type} [DecidableEq α]

/-- In-memory state of a `DbObject`. -/
structure DbObjectState (α : Type) where
  id : Option Nat
  newValues : String → Option α
  dbValues : String → Option α

/-- Update one key of a dictionary. -/
def setKey (m : String → Option α) (k : String) (v : Option α) :
    String → Option α :=
  fun k' => if k' = k then v else m k'

/-- The static descriptor of a `DbObject` subclass: the scalar keys `_load`
fills (the entity's columns plus its join aliases) and the names of its
collections. -/
structure DbClass where
  scalarKeys : List String
  collectionNames : List String

/-- The external store, as seen by one entity: the current persisted value of
each scalar key of its row, and the currently persisted items of each of its
collections (held abstractly as one value of type `α`). -/
structure ExtDb (α : Type) where
  row : String → α
  coll : String → α

/-- `DbObject._load` (models.py lines 110-118): fetch the entity's row and
copy every non-id column into `_db_values`. -/
def load (cls : DbClass) (db : ExtDb α) (s : DbObjectState α) :
    DbObjectState α :=
  { s with dbValues := fun k =>
      if k ∈ cls.scalarKeys then some (db.row k) else s.dbValues k }

/-- `DbObject.db_changed` (models.py lines 28-38): when the entity has an
identity, re-run `_load` and then pop every collection name from
`_db_values`. -/
def db_changed (cls : DbClass) (db : ExtDb α) (s : DbObjectState α) :
    DbObjectState α :=
  if s.id.isSome then
    let s1 := load cls db s
    { s1 with dbValues := fun k =>
        if k ∈ cls.collectionNames then none else s1.dbValues k }
  else s

/-- `DbObject._load_collection` (models.py lines 120-130): fetch the
collection from the store and cache it in `_db_values`. -/
def load_collection (db : ExtDb α) (name : String) (s : DbObjectState α) :
    α × DbObjectState α :=
  (db.coll name, { s with dbValues := setKey s.dbValues name (some (db.coll name)) })

/-- `Collection.__get__` (models.py lines 220-230): when the collection name
is not yet in `_new_values`, either fetch it from the store (entity has an
identity) and cache a working copy in `_new_values`, or start it as the empty
list (`emptyVal`); then return `_new_values[name]`.  The third component
records whether a store fetch (`_load_collection`) was performed. -/
def collection_get (db : ExtDb α) (emptyVal : α) (name : String)
    (s : DbObjectState α) : α × DbObjectState α × Bool :=
  match s.newValues name with
  | some v => (v, s, false)
  | none =>
    if s.id.isSome then
      let p := load_collection db name s
      (p.1, { p.2 with newValues := setKey p.2.newValues name (some p.1) }, true)
    else
      (emptyVal, { s with newValues := setKey s.newValues name (some emptyVal) },
        false)

/-- The dynamic INSERT statement built by `Database._dynamic_insert`
(database.py lines 399-415). -/
structure InsertStmt (α : Type) where
  table : String
  columnValues : List (String × α)
  deriving Repr, DecidableEq

/-- `Database._dynamic_insert`: build and execute the INSERT.  The Python
function ends without a `return` statement, so its caller receives `None`;
the second component is that (absent) return value. -/
def dynamic_insert (table : String) (columnValues : List (String × α)) :
    InsertStmt α × Option Nat :=
  (⟨table, columnValues⟩, none)

/-- The dynamic UPDATE statement built by `Database._dynamic_update`
(database.py lines 450-479): one SET assignment per `column_values` entry and
one WHERE comparison per `where_conditions` entry. -/
structure UpdateStmt (α : Type) where
  table : String
  assignments : List (String × α)
  conditions : List (String × α)
  deriving Repr, DecidableEq

/-- `Database._dynamic_update`: build the UPDATE statement (the values are
passed as bound parameters; only the structure matters here). -/
def dynamic_update (table : String)
    (columnValues whereConditions : List (String × α)) : UpdateStmt α :=
  ⟨table, columnValues, whereConditions⟩

/-- The SQLite engine's acceptance of a dynamic UPDATE: the SQL grammar
requires at least one assignment after SET, so `_dynamic_update` with an
empty `column_values` produces the malformed text `update t set  where ...`,
which the store rejects with a syntax error before executing anything. -/
def execUpdate (stmt : UpdateStmt α) : Except String Unit :=
  if stmt.assignments.isEmpty then Except.error "malformed update statement"
  else Except.ok ()

/-- The changed-scalar computation of `DbObject.save` (models.py lines
42-45): the columns present in `_new_values` whose value differs from the
baseline `_db_values.get(k)`, determinized to static column order. -/
def dirtyColumns (columns : List String) (s : DbObjectState α) :
    List (String × α) :=
  columns.filterMap (fun k =>
    match s.newValues k with
    | some v => if s.dbValues k = some v then none else some (k, v)
    | none => none)

/-- The update statement issued by `DbObject.save` for an entity that already
has an identity (models.py lines 54-56): `_dynamic_update` on the changed
columns with `where_conditions = {"id": self._id}` (`idVal` is the entity's
id embedded into the value domain). -/
def save_update_stmt (table : String) (columns : List String)
    (s : DbObjectState α) (idVal : α) : UpdateStmt α :=
  dynamic_update table (dirtyColumns columns s) [("id", idVal)]

/-- The insert branch of `DbObject.save` for a new entity (models.py lines
46-58): `self._id = self._db._dynamic_insert(...)` followed by
`self._db_values.update(column_values)`.  Returns the updated entity state
and the INSERT statement that was executed. -/
def save_scalar_new (table : String) (columns : List String)
    (s : DbObjectState α) : DbObjectState α × InsertStmt α :=
  let columnValues := dirtyColumns columns s
  let res := dynamic_insert table columnValues
  ({ s with id := res.2,
            dbValues := fun k =>
              match columnValues.lookup k with
              | some v => some v
              | none => s.dbValues k },
    res.1)

/-- The scalar columns of the `Person` entity (models.py lines 270-276). -/
def personColumns : List String :=
  ["first_name_or_nickname", "pronouns", "notes"]

/-- A concrete external store for evaluations: every scalar reads 0 and every
collection currently holds the (abstract) value 7. -/
def exampleDb : ExtDb Nat := ⟨fun _ => 0, fun _ => 7⟩

/-- A concrete entity descriptor with one scalar key and one collection. -/
def exampleClass : DbClass := ⟨["name"], ["aliases"]⟩

/-- A persisted entity whose `aliases` collection was read earlier: the read
cached the fetched value 5 in both `_new_values` and `_db_values`
(models.py lines 220-230). -/
def exampleEntity : DbObjectState Nat :=
  ⟨some 1, setKey (fun _ => none) "aliases" (some 5),
    setKey (fun _ => none) "aliases" (some 5)⟩

end Entity

/-- C2: For every invocation of the migration apply operation, if any
exception is raised during it (a script statement fails, a version check
fails, or the final version check fails), the entire transaction is rolled
back before the exception propagates, leaving the store's schema version and
contents exactly as they were before the call; on success the transaction is
committed exactly once (the single `Except.ok` branch of `apply_migrations`
is the one commit point), the committed state is precisely the state the
migration loop produced, and no partial version advancement is ever
observable. -/
theorem apply_migrations_atomic (exec : ExecStmt) (expected : Nat)
    (scripts : List MigrationScript) (db : MigState) :
    (∀ e, (apply_migrations exec expected scripts db).2 = some e →
      (apply_migrations exec expected scripts db).1 = db) ∧
    ((apply_migrations exec expected scripts db).2 = none →
      migrationLoop exec expected scripts db =
        Except.ok (apply_migrations exec expected scripts db).1 ∧
      expected ≤ (apply_migrations exec expected scripts db).1.userVersion) := by
  unfold apply_migrations
  cases h : migrationLoop exec expected scripts db with
  | error e => simp
  | ok s =>
    by_cases hv : s.userVersion < expected
    · simp [hv]
    · simp [hv]
      omega

/-- Witness for C2: scripts 1, 2, 3 with expected version 3, applied from
version 0, where the second statement of script 2 raises: the committed state
is exactly the initial one (version 0, no statement effects visible). -/
theorem apply_migrations_atomic_app :
    (apply_migrations execRecord 3
      [⟨1, ["a"]⟩, ⟨2, ["b", "BOOM"]⟩, ⟨3, ["c"]⟩] ⟨0, []⟩).1 = ⟨0, []⟩ :=
  (apply_migrations_atomic execRecord 3
      [⟨1, ["a"]⟩, ⟨2, ["b", "BOOM"]⟩, ⟨3, ["c"]⟩] ⟨0, []⟩).1
    (MigrationError.statementFailed "BOOM") (by decide)

/-- C3: During migration apply, every script whose version is at most the
current persisted version is skipped (processing it leaves the transaction
state unchanged), and any eligible script whose version exceeds the expected
version or is not exactly the current version plus 1 raises the
version-sequence error; in particular applying the script set with versions 1
and 3 (skipping 2) with expected version 3 from version 0 fails with the
version-sequence error and leaves the committed store exactly at version 0
with no statement effects. -/
theorem migration_version_sequence :
    (∀ (exec : ExecStmt) (expected : Nat) (s : MigState)
        (script : MigrationScript), script.version ≤ s.userVersion →
      processScript exec expected s script = Except.ok s) ∧
    (∀ (exec : ExecStmt) (expected : Nat) (s : MigState)
        (script : MigrationScript), s.userVersion < script.version →
      (expected < script.version ∨ script.version ≠ s.userVersion + 1) →
      processScript exec expected s script =
        Except.error (MigrationError.versionTooHigh script.version)) ∧
    apply_migrations execRecord 3 [⟨1, ["a"]⟩, ⟨3, ["c"]⟩] ⟨0, []⟩ =
      (⟨0, []⟩, some (MigrationError.versionTooHigh 3)) := by
  refine ⟨?_, ?_, by decide⟩
  · intro exec expected s script h
    unfold processScript
    simp [h]
  · intro exec expected s script h1 h2
    unfold processScript
    rw [if_neg (by omega), if_pos h2]

/-- Witness for C3: with the store at version 1 and expected version 3, the
script with version 1 is skipped and the script with version 3 raises the
version-sequence error. -/
theorem migration_version_sequence_app :
    processScript execRecord 3 ⟨1, ["a"]⟩ ⟨1, ["a"]⟩ = Except.ok ⟨1, ["a"]⟩ ∧
    processScript execRecord 3 ⟨1, ["a"]⟩ ⟨3, ["c"]⟩ =
      Except.error (MigrationError.versionTooHigh 3) :=
  ⟨migration_version_sequence.1 execRecord 3 ⟨1, ["a"]⟩ ⟨1, ["a"]⟩ (by decide),
   migration_version_sequence.2.1 execRecord 3 ⟨1, ["a"]⟩ ⟨3, ["c"]⟩
     (by decide) (by decide)⟩

/-- Counterexample to C4: the post-loop check in `apply_migrations` is
`get_sqlite_user_version() < expected_version` (strictly less), not a
disequality: starting from a store already at version 2 with expected
version 1 and no applicable scripts, apply succeeds (commits, raises
nothing) even though the final persisted version, 2, differs from the
expected version 1 — refuting the claim that apply fails whenever the
persisted version does not equal the expected one. -/
theorem apply_migrations_final_check_counterexample :
    (apply_migrations execRecord 1 [] ⟨2, []⟩).2 = none ∧
    (apply_migrations execRecord 1 [] ⟨2, []⟩).1.userVersion ≠ 1 := by
  decide

/-- C4 (amended): After the migration loop finishes processing all scripts,
the apply operation fails with the incomplete-migration error exactly when
the persisted schema version is strictly less than the expected version
(i.e. apply succeeds only if `currentVersion() >= expectedVersion` after the
loop, the committed state then being the loop's final state). -/
theorem apply_migrations_final_check (exec : ExecStmt) (expected : Nat)
    (scripts : List MigrationScript) (db s : MigState)
    (hloop : migrationLoop exec expected scripts db = Except.ok s) :
    (s.userVersion < expected →
      apply_migrations exec expected scripts db =
        (db, some MigrationError.versionLowerThanExpected)) ∧
    (expected ≤ s.userVersion →
      apply_migrations exec expected scripts db = (s, none)) := by
  unfold apply_migrations
  rw [hloop]
  refine ⟨fun h => ?_, fun h => ?_⟩
  · simp [h]
  · simp [Nat.not_lt.mpr h]

/-- Witness for C4 (amended): from version 0 with a single script for
version 1 and expected version 1, the loop ends at version 1 and apply
commits that state with no error. -/
theorem apply_migrations_final_check_app :
    apply_migrations execRecord 1 [⟨1, ["a"]⟩] ⟨0, []⟩ = (⟨1, ["a"]⟩, none) :=
  (apply_migrations_final_check execRecord 1 [⟨1, ["a"]⟩] ⟨0, []⟩ ⟨1, ["a"]⟩
    rfl).2 (by decide)

section ReconcilerProofs

variable {α : Type} [DecidableEq α]

theorem mem_dedupFirst {l : List α} {a : α} : a ∈ dedupFirst l ↔ a ∈ l := by
  induction l with
  | nil => simp [dedupFirst]
  | cons x xs ih =>
    by_cases hax : a = x <;> simp [dedupFirst, List.mem_filter, ih, hax]

theorem nodup_dedupFirst (l : List α) : (dedupFirst l).Nodup := by
  induction l with
  | nil => simp [dedupFirst]
  | cons x xs ih =>
    rw [dedupFirst, List.nodup_cons]
    refine ⟨fun h => ?_, ih.filter _⟩
    rw [List.mem_filter] at h
    simp at h

theorem mem_removeTuples {old new : List (List α)} {t : List α} :
    t ∈ removeTuples old new ↔ t ∈ old ∧ t ∉ new := by
  simp [removeTuples, List.mem_filter, mem_dedupFirst]

theorem mem_addTuples {old new : List (List α)} {t : List α} :
    t ∈ addTuples old new ↔ t ∈ new ∧ t ∉ old := by
  simp [addTuples, List.mem_filter, mem_dedupFirst]

theorem nodup_removeTuples (old new : List (List α)) :
    (removeTuples old new).Nodup :=
  (nodup_dedupFirst old).filter _

theorem nodup_addTuples (old new : List (List α)) :
    (addTuples old new).Nodup :=
  (nodup_dedupFirst new).filter _

omit [DecidableEq α] in
theorem zipLongestOps_nil_right (r : List (List α)) :
    zipLongestOps r [] = r.map CollectionOp.delete := by
  induction r with
  | nil => rfl
  | cons o os ih => simp [zipLongestOps, ih]

omit [DecidableEq α] in
theorem zipLongestOps_nil_left (a : List (List α)) :
    zipLongestOps [] a = a.map CollectionOp.insert := rfl

omit [DecidableEq α] in
theorem zipLongestOps_eq (r a : List (List α)) :
    zipLongestOps r a =
      List.zipWith (fun o n => CollectionOp.update n o) r a ++
      (r.drop a.length).map CollectionOp.delete ++
      (a.drop r.length).map CollectionOp.insert := by
  induction r generalizing a with
  | nil => simp [zipLongestOps_nil_left]
  | cons o os ih =>
    cases a with
    | nil => simp [zipLongestOps_nil_right]
    | cons n ns => simp [zipLongestOps, ih ns]

theorem update_collection_eq_nil {old new : List (List α)}
    (h : ∀ t, t ∈ old ↔ t ∈ new) : update_collection old new = [] := by
  have hr : removeTuples old new = [] := by
    rw [removeTuples, List.filter_eq_nil_iff]
    intro t ht
    rw [mem_dedupFirst] at ht
    simp only [decide_eq_true_eq, not_not]
    exact (h t).mp ht
  have ha : addTuples old new = [] := by
    rw [addTuples, List.filter_eq_nil_iff]
    intro t ht
    rw [mem_dedupFirst] at ht
    simp only [decide_eq_true_eq, not_not]
    exact (h t).mpr ht
  rw [update_collection, hr, ha]
  rfl

end ReconcilerProofs

/-- C5: For every pair of old and new collections, the reconciliation diff
pairs each removed tuple with an added tuple (in iteration order), emitting
one update operation per pair, and only the unpaired removals become deletes
and only the unpaired additions become inserts; in particular for
old = {A, B, C} and new = {B, C, D} the plan is exactly one update rewriting
A's row to D, with zero inserts and zero deletes. -/
theorem update_collection_plan :
    (∀ (α : Type) [DecidableEq α] (old new : List (List α)),
      update_collection old new =
        List.zipWith (fun o n => CollectionOp.update n o)
          (removeTuples old new) (addTuples old new) ++
        ((removeTuples old new).drop (addTuples old new).length).map
          CollectionOp.delete ++
        ((addTuples old new).drop (removeTuples old new).length).map
          CollectionOp.insert) ∧
    update_collection (wrapSingles ([1, 2, 3] : List Nat))
        (wrapSingles [2, 3, 4]) =
      [CollectionOp.update [4] [1]] := by
  refine ⟨?_, by decide⟩
  intro α inst old new
  exact zipLongestOps_eq _ _

/-- Witness for C5: the concrete plan for old = {1, 2, 3}, new = {2, 3, 4}
is the single update rewriting 1's row to 4. -/
theorem update_collection_plan_app :
    update_collection (wrapSingles ([1, 2, 3] : List Nat))
        (wrapSingles [2, 3, 4]) =
      [CollectionOp.update [4] [1]] :=
  update_collection_plan.2

/-- Counterexample to C6: saving a primary-marked collection with new items
equal to the old items still executes the two primary-marker maintenance
statements (clear all flags, then set the flag on the row of the first item),
so the operation plan for `reconcile(X, X)` is not empty. -/
theorem save_collection_self_counterexample :
    save_collection_ops true (wrapSingles [(1 : Nat)]) (wrapSingles [1]) =
      [SaveOp.clearPrimary, SaveOp.setPrimary [1]] ∧
    save_collection_ops true (wrapSingles [(1 : Nat)]) (wrapSingles [1]) ≠
      [] := by
  decide

/-- C6 (amended): For every collection X, reconciling X against itself (old
equal to new as sets) produces no insert, update or delete operation — the
diff plan is empty — and for a collection without a primary marker the whole
save plan is empty; but for a primary-marked collection with X non-empty the
save still emits the primary-marker maintenance operations (a clear of all
flags when the old sequence was non-empty, then a set on the row of the
first new item). -/
theorem reconcile_self_ops (α : Type) [DecidableEq α] (hasPrimary : Bool)
    (old new : List (List α)) (h : ∀ t, t ∈ old ↔ t ∈ new) :
    update_collection old new = [] ∧
    save_collection_ops hasPrimary old new =
      (if hasPrimary && !new.isEmpty then
        (if !old.isEmpty then [SaveOp.clearPrimary] else []) ++
          [SaveOp.setPrimary (new.headD [])]
      else []) := by
  have h0 := update_collection_eq_nil h
  refine ⟨h0, ?_⟩
  rw [save_collection_ops, h0]
  rfl

/-- Witness for C6 (amended): reconciling {1, 2} against itself produces an
empty diff plan. -/
theorem reconcile_self_ops_app :
    update_collection (wrapSingles [(1 : Nat), 2]) (wrapSingles [1, 2]) =
      [] :=
  (reconcile_self_ops Nat true (wrapSingles [1, 2]) (wrapSingles [1, 2])
    (fun _ => Iff.rfl)).1

section RowProofs

variable {α : Type} [DecidableEq α]

theorem map_replace_spec {β : Type} [DecidableEq β] {l : List β} {o n : β}
    (hnd : l.Nodup) (ho : o ∈ l) (hn : n ∉ l) :
    (l.map (fun v => if v = o then n else v)).Nodup ∧
    ∀ t, (t ∈ l.map (fun v => if v = o then n else v) ↔
      (t ∈ l ∧ t ≠ o) ∨ t = n) := by
  induction l with
  | nil => cases ho
  | cons x xs ih =>
    rw [List.nodup_cons] at hnd
    rw [List.mem_cons] at ho hn
    push_neg at hn
    by_cases hxo : x = o
    · subst hxo
      have hxs : ∀ t ∈ xs, t ≠ x := fun t ht he => hnd.1 (he ▸ ht)
      have hmap : xs.map (fun v => if v = x then n else v) = xs := by
        have h1 : xs.map (fun v => if v = x then n else v) = xs.map id := by
          apply List.map_congr_left
          intro t ht
          rw [if_neg (hxs t ht)]
          rfl
        rw [h1, List.map_id]
      constructor
      · rw [List.map_cons, if_pos rfl, hmap, List.nodup_cons]
        exact ⟨fun h => hn.2 h, hnd.2⟩
      · intro t
        rw [List.map_cons, if_pos rfl, hmap, List.mem_cons, List.mem_cons]
        constructor
        · rintro (rfl | ht)
          · right; rfl
          · exact Or.inl ⟨Or.inr ht, hxs t ht⟩
        · rintro (⟨rfl | ht, hto⟩ | rfl)
          · exact absurd rfl hto
          · exact Or.inr ht
          · exact Or.inl rfl
    · have ho' : o ∈ xs := ho.resolve_left (fun he => hxo he.symm)
      obtain ⟨ihnd, ihmem⟩ := ih hnd.2 ho' hn.2
      constructor
      · rw [List.map_cons, if_neg hxo, List.nodup_cons]
        refine ⟨fun h => ?_, ihnd⟩
        rcases (ihmem x).mp h with ⟨hx, _⟩ | rfl
        · exact hnd.1 hx
        · exact hn.1 rfl
      · intro t
        rw [List.map_cons, if_neg hxo, List.mem_cons, ihmem t,
          List.mem_cons]
        constructor
        · rintro (rfl | ⟨ht, hto⟩ | rfl)
          · exact Or.inl ⟨Or.inl rfl, hxo⟩
          · exact Or.inl ⟨Or.inr ht, hto⟩
          · exact Or.inr rfl
        · rintro (⟨rfl | ht, hto⟩ | rfl)
          · exact Or.inl rfl
          · exact Or.inr (Or.inl ⟨ht, hto⟩)
          · exact Or.inr (Or.inr rfl)

theorem map_values_update (rows : List (DbRow α)) (cv wv : List α) :
    (applyCollectionOp rows (CollectionOp.update cv wv)).map DbRow.values =
      (rows.map DbRow.values).map (fun v => if v = wv then cv else v) := by
  simp only [applyCollectionOp, List.map_map]
  apply List.map_congr_left
  intro r _
  by_cases h : r.values = wv <;> simp [h]

theorem map_values_filter (rows : List (DbRow α)) (wv : List α) :
    (applyCollectionOp rows (CollectionOp.delete wv)).map DbRow.values =
      (rows.map DbRow.values).filter (fun v => decide (v ≠ wv)) := by
  simp only [applyCollectionOp]
  induction rows with
  | nil => rfl
  | cons r rest ih =>
    by_cases h : r.values = wv <;>
      simpa [List.filter_cons, h, decide_not] using ih

theorem map_values_insert (rows : List (DbRow α)) (v : List α) :
    (applyCollectionOp rows (CollectionOp.insert v)).map DbRow.values =
      rows.map DbRow.values ++ [v] := by
  simp [applyCollectionOp]

theorem applyCollectionOp_primary_false {rows : List (DbRow α)}
    {op : CollectionOp α} (h : ∀ r ∈ rows, r.primary = false) :
    ∀ r ∈ applyCollectionOp rows op, r.primary = false := by
  cases op with
  | update cv wv =>
    intro r hr
    rw [applyCollectionOp, List.mem_map] at hr
    obtain ⟨r0, hr0, heq⟩ := hr
    by_cases h0 : r0.values = wv
    · rw [if_pos h0] at heq
      rw [← heq]
      exact h r0 hr0
    · rw [if_neg h0] at heq
      rw [← heq]
      exact h r0 hr0
  | delete wv =>
    intro r hr
    rw [applyCollectionOp, List.mem_filter] at hr
    exact h r hr.1
  | insert v =>
    intro r hr
    rw [applyCollectionOp, List.mem_append] at hr
    rcases hr with hr | hr
    · exact h r hr
    · rw [List.mem_singleton] at hr
      rw [hr]

theorem foldl_applyCollectionOp_primary_false {rows : List (DbRow α)}
    (plan : List (CollectionOp α)) (h : ∀ r ∈ rows, r.primary = false) :
    ∀ r ∈ plan.foldl applyCollectionOp rows, r.primary = false := by
  induction plan generalizing rows with
  | nil => exact h
  | cons op rest ih => exact ih (applyCollectionOp_primary_false h)

theorem applyZip_spec (r : List (List α)) :
    ∀ (a : List (List α)) (rows : List (DbRow α)),
      (rows.map DbRow.values).Nodup →
      r.Nodup → a.Nodup →
      (∀ t ∈ r, t ∈ rows.map DbRow.values) →
      (∀ t ∈ a, t ∉ rows.map DbRow.values) →
      (∀ t ∈ a, t ∉ r) →
      (((zipLongestOps r a).foldl applyCollectionOp rows).map
        DbRow.values).Nodup ∧
      (∀ t, t ∈ ((zipLongestOps r a).foldl applyCollectionOp rows).map
          DbRow.values ↔
        ((t ∈ rows.map DbRow.values ∧ t ∉ r) ∨ t ∈ a)) := by
  induction r with
  | nil =>
    intro a
    induction a with
    | nil =>
      intro rows hnd _ _ _ _ _
      refine ⟨hnd, fun t => ?_⟩
      simp [zipLongestOps]
    | cons n ns iha =>
      intro rows hnd hrnd hand hr ha hra
      rw [List.nodup_cons] at hand
      have hn : n ∉ rows.map DbRow.values := ha n (List.mem_cons_self n ns)
      have step : zipLongestOps ([] : List (List α)) (n :: ns) =
          CollectionOp.insert n :: zipLongestOps [] ns := by
        rw [zipLongestOps_nil_left, zipLongestOps_nil_left, List.map_cons]
      rw [step, List.foldl_cons]
      have hmv := map_values_insert rows n
      obtain ⟨jnd, jmem⟩ := iha (applyCollectionOp rows (CollectionOp.insert n))
        (by
          rw [hmv, List.nodup_append]
          exact ⟨hnd, List.nodup_singleton n,
            by simpa [List.disjoint_right] using hn⟩)
        hrnd hand.2
        (by intro t ht; cases ht)
        (by
          intro t ht
          rw [hmv, List.mem_append, List.mem_singleton]
          rintro (h1 | rfl)
          · exact ha t (List.mem_cons_of_mem n ht) h1
          · exact hand.1 ht)
        (fun t _ => List.not_mem_nil t)
      refine ⟨jnd, fun t => ?_⟩
      rw [jmem t, hmv, List.mem_append, List.mem_singleton, List.mem_cons]
      constructor
      · rintro (⟨h1 | rfl, -⟩ | h1)
        · exact Or.inl ⟨h1, List.not_mem_nil t⟩
        · exact Or.inr (Or.inl rfl)
        · exact Or.inr (Or.inr h1)
      · rintro (⟨h1, -⟩ | rfl | h1)
        · exact Or.inl ⟨Or.inl h1, List.not_mem_nil t⟩
        · exact Or.inl ⟨Or.inr rfl, List.not_mem_nil t⟩
        · exact Or.inr h1
  | cons o os ihr =>
    intro a rows hnd hrnd hand hr ha hra
    rw [List.nodup_cons] at hrnd
    have ho : o ∈ rows.map DbRow.values := hr o (List.mem_cons_self o os)
    cases a with
    | nil =>
      have step : zipLongestOps (o :: os) ([] : List (List α)) =
          CollectionOp.delete o :: zipLongestOps os [] := rfl
      rw [step, List.foldl_cons]
      have hmv := map_values_filter rows o
      obtain ⟨jnd, jmem⟩ := ihr []
        (applyCollectionOp rows (CollectionOp.delete o))
        (by rw [hmv]; exact hnd.filter _)
        hrnd.2 List.nodup_nil
        (by
          intro t ht
          rw [hmv, List.mem_filter, decide_eq_true_eq]
          exact ⟨hr t (List.mem_cons_of_mem o ht),
            fun he => hrnd.1 (he ▸ ht)⟩)
        (by intro t ht; cases ht)
        (by intro t ht; cases ht)
      refine ⟨jnd, fun t => ?_⟩
      rw [jmem t, hmv, List.mem_filter, decide_eq_true_eq, List.mem_cons]
      constructor
      · rintro (⟨⟨h1, h2⟩, h3⟩ | h1)
        · exact Or.inl ⟨h1, by
            rintro (rfl | h4)
            · exact h2 rfl
            · exact h3 h4⟩
        · cases h1
      · rintro (⟨h1, h2⟩ | h1)
        · exact Or.inl ⟨⟨h1, fun he => h2 (Or.inl he)⟩,
            fun h4 => h2 (Or.inr h4)⟩
        · cases h1
    | cons n ns =>
      rw [List.nodup_cons] at hand
      have hn : n ∉ rows.map DbRow.values := ha n (List.mem_cons_self n ns)
      have step : zipLongestOps (o :: os) (n :: ns) =
          CollectionOp.update n o :: zipLongestOps os ns := rfl
      rw [step, List.foldl_cons]
      have hmv := map_values_update rows n o
      obtain ⟨rnd, rmem⟩ := map_replace_spec hnd ho hn
      obtain ⟨jnd, jmem⟩ := ihr ns
        (applyCollectionOp rows (CollectionOp.update n o))
        (by rw [hmv]; exact rnd)
        hrnd.2 hand.2
        (by
          intro t ht
          rw [hmv, rmem t]
          exact Or.inl ⟨hr t (List.mem_cons_of_mem o ht),
            fun he => hrnd.1 (he ▸ ht)⟩)
        (by
          intro t ht
          rw [hmv, rmem t]
          rintro (⟨h1, -⟩ | rfl)
          · exact ha t (List.mem_cons_of_mem n ht) h1
          · exact hand.1 ht)
        (by
          intro t ht h1
          exact hra t (List.mem_cons_of_mem n ht) (List.mem_cons_of_mem o h1))
      refine ⟨jnd, fun t => ?_⟩
      have hnos : n ∉ o :: os := hra n (List.mem_cons_self n ns)
      rw [jmem t, hmv, rmem t, List.mem_cons, List.mem_cons]
      constructor
      · rintro (⟨⟨h1, h2⟩ | rfl, h3⟩ | h1)
        · exact Or.inl ⟨h1, by
            rintro (rfl | h4)
            · exact h2 rfl
            · exact h3 h4⟩
        · exact Or.inr (Or.inl rfl)
        · exact Or.inr (Or.inr h1)
      · rintro (⟨h1, h2⟩ | rfl | h1)
        · exact Or.inl ⟨Or.inl ⟨h1, fun he => h2 (Or.inl he)⟩,
            fun h4 => h2 (Or.inr h4)⟩
        · exact Or.inl ⟨Or.inr rfl, fun h4 =>
            hnos (List.mem_cons_of_mem o h4)⟩
        · exact Or.inr h1

theorem update_collection_apply (rows : List (DbRow α))
    (old new : List (List α))
    (hnd : (rows.map DbRow.values).Nodup)
    (hmem : ∀ t, t ∈ rows.map DbRow.values ↔ t ∈ old) :
    (((update_collection old new).foldl applyCollectionOp rows).map
      DbRow.values).Nodup ∧
    (∀ t, t ∈ ((update_collection old new).foldl applyCollectionOp rows).map
        DbRow.values ↔ t ∈ new) := by
  obtain ⟨jnd, jmem⟩ := applyZip_spec (removeTuples old new)
    (addTuples old new) rows hnd
    (nodup_removeTuples old new) (nodup_addTuples old new)
    (fun t ht => (hmem t).mpr (mem_removeTuples.mp ht).1)
    (fun t ht h' => (mem_addTuples.mp ht).2 ((hmem t).mp h'))
    (fun t ht h' => (mem_addTuples.mp ht).2 (mem_removeTuples.mp h').1)
  refine ⟨jnd, fun t => ?_⟩
  rw [update_collection, jmem t]
  constructor
  · rintro (⟨hrow, hnr⟩ | hadd)
    · by_contra hnew
      exact hnr (mem_removeTuples.mpr ⟨(hmem t).mp hrow, hnew⟩)
    · exact (mem_addTuples.mp hadd).1
  · intro hnew
    by_cases hold : t ∈ old
    · exact Or.inl ⟨(hmem t).mpr hold,
        fun hr => (mem_removeTuples.mp hr).2 hnew⟩
    · exact Or.inr (mem_addTuples.mpr ⟨hnew, hold⟩)

theorem applySaveOps_collection (rows : List (DbRow α))
    (plan : List (CollectionOp α)) :
    applySaveOps rows (plan.map SaveOp.collectionOp) =
      plan.foldl applyCollectionOp rows := by
  induction plan generalizing rows with
  | nil => rfl
  | cons op rest ih =>
    rw [List.map_cons, applySaveOps, List.foldl_cons, List.foldl_cons]
    exact ih (applySaveOp rows (SaveOp.collectionOp op))

theorem applySaveOps_append (rows : List (DbRow α))
    (l1 l2 : List (SaveOp α)) :
    applySaveOps rows (l1 ++ l2) = applySaveOps (applySaveOps rows l1) l2 := by
  rw [applySaveOps, applySaveOps, applySaveOps, List.foldl_append]

theorem clearPrimary_values (rows : List (DbRow α)) :
    (applySaveOp rows SaveOp.clearPrimary).map DbRow.values =
      rows.map DbRow.values := by
  rw [applySaveOp, List.map_map]
  rfl

theorem clearPrimary_all_false (rows : List (DbRow α)) :
    ∀ r ∈ applySaveOp rows SaveOp.clearPrimary, r.primary = false := by
  intro r hr
  rw [applySaveOp, List.mem_map] at hr
  obtain ⟨r0, -, heq⟩ := hr
  rw [← heq]

theorem setPrimary_spec (rows : List (DbRow α)) (h : List α)
    (hall : ∀ r ∈ rows, r.primary = false)
    (hnd : (rows.map DbRow.values).Nodup)
    (hmem : h ∈ rows.map DbRow.values) :
    ((applySaveOp rows (SaveOp.setPrimary h)).filter
      (fun r => r.primary)).map DbRow.values = [h] ∧
    (applySaveOp rows (SaveOp.setPrimary h)).map DbRow.values =
      rows.map DbRow.values := by
  induction rows with
  | nil => cases hmem
  | cons r rest ih =>
    rw [List.map_cons, List.nodup_cons] at hnd
    rw [List.map_cons, List.mem_cons] at hmem
    have hallr : r.primary = false := hall r (List.mem_cons_self r rest)
    have hallrest : ∀ x ∈ rest, x.primary = false :=
      fun x hx => hall x (List.mem_cons_of_mem r hx)
    by_cases hv : r.values = h
    · have hrest : rest.map
          (fun x => if x.values = h then { x with primary := true } else x) =
          rest := by
        have h1 : rest.map
            (fun x => if x.values = h then { x with primary := true } else x) =
            rest.map id := by
          apply List.map_congr_left
          intro x hx
          have hxv : x.values ≠ h := by
            intro he
            exact hnd.1 (by
              rw [hv, ← he]
              exact List.mem_map_of_mem DbRow.values hx)
          rw [if_neg hxv]
          rfl
        rw [h1, List.map_id]
      have hfrest : rest.filter (fun x => x.primary) = [] := by
        rw [List.filter_eq_nil_iff]
        intro x hx
        rw [hallrest x hx]
        exact Bool.false_ne_true
      constructor
      · rw [applySaveOp, List.map_cons, if_pos hv, hrest, List.filter_cons]
        simp [hfrest, hv]
      · rw [applySaveOp, List.map_cons, if_pos hv, hrest]
        rfl
    · have hmem' : h ∈ rest.map DbRow.values := by
        rcases hmem with he | hm
        · exact absurd he.symm hv
        · exact hm
      obtain ⟨ih1, ih2⟩ := ih hallrest hnd.2 hmem'
      constructor
      · rw [applySaveOp, List.map_cons, if_neg hv, List.filter_cons]
        simp only [hallr, Bool.false_eq_true, if_false]
        exact ih1
      · rw [applySaveOp, List.map_cons, if_neg hv, List.map_cons]
        exact congrArg (fun l => r.values :: l) ih2

end RowProofs

/-- C7: For every save of a non-empty collection that has a primary marker,
starting from persisted rows with pairwise distinct value tuples whose set of
value tuples is the baseline item set: after the diff operations the marker
is first cleared on all of the parent's rows (when the collection was
previously non-empty) and then set on the row matching the first element of
the new sequence, so that after save the persisted rows are exactly the new
item set, they stay pairwise distinct, and exactly one row carries the
marker — the row of the first element of the most recently saved ordering;
moreover saving a reordering of the same items emits no insert, update or
delete at all, only the marker clear and set. -/
theorem save_primary_marker (α : Type) [DecidableEq α]
    (rows : List (DbRow α)) (old new : List (List α))
    (hnd : (rows.map DbRow.values).Nodup)
    (hmem : ∀ t, t ∈ rows.map DbRow.values ↔ t ∈ old)
    (hne : new ≠ []) :
    ((applySaveOps rows (save_collection_ops true old new)).filter
        (fun r => r.primary)).map DbRow.values = [new.headD []] ∧
    (∀ t, t ∈ (applySaveOps rows (save_collection_ops true old new)).map
        DbRow.values ↔ t ∈ new) ∧
    ((applySaveOps rows (save_collection_ops true old new)).map
      DbRow.values).Nodup ∧
    ((∀ t, t ∈ old ↔ t ∈ new) →
      save_collection_ops true old new =
        [SaveOp.clearPrimary, SaveOp.setPrimary (new.headD [])]) := by
  obtain ⟨n, ns, rfl⟩ : ∃ n ns, new = n :: ns := by
    cases new with
    | nil => exact absurd rfl hne
    | cons n ns => exact ⟨n, ns, rfl⟩
  have headmem : (n :: ns).headD [] ∈ n :: ns := List.mem_cons_self n ns
  obtain ⟨dnd, dmem⟩ := update_collection_apply rows old (n :: ns) hnd hmem
  cases old with
  | nil =>
    have hrows : rows = [] := by
      have h0 : rows.map DbRow.values = [] := by
        apply List.eq_nil_iff_forall_not_mem.mpr
        intro t ht
        simpa using (hmem t).mp ht
      simpa using h0
    have hfalse : ∀ r ∈ (update_collection ([] : List (List α))
        (n :: ns)).foldl applyCollectionOp rows, r.primary = false := by
      apply foldl_applyCollectionOp_primary_false
      rw [hrows]
      intro r hr
      cases hr
    have hform : save_collection_ops true ([] : List (List α)) (n :: ns) =
        (update_collection ([] : List (List α)) (n :: ns)).map
          SaveOp.collectionOp ++ [SaveOp.setPrimary n] := rfl
    have happ : applySaveOps rows
        (save_collection_ops true ([] : List (List α)) (n :: ns)) =
        applySaveOp ((update_collection ([] : List (List α))
          (n :: ns)).foldl applyCollectionOp rows) (SaveOp.setPrimary n) := by
      rw [hform, applySaveOps_append, applySaveOps_collection]
      rfl
    obtain ⟨s1, s2⟩ := setPrimary_spec _ n hfalse dnd ((dmem _).mpr headmem)
    refine ⟨?_, ?_, ?_, ?_⟩
    · rw [happ]
      exact s1
    · intro t
      rw [happ, s2]
      exact dmem t
    · rw [happ, s2]
      exact dnd
    · intro hsame
      exact absurd ((hsame n).mpr headmem) (List.not_mem_nil _)
  | cons o1 oldt =>
    have hform : save_collection_ops true (o1 :: oldt) (n :: ns) =
        (update_collection (o1 :: oldt) (n :: ns)).map SaveOp.collectionOp ++
          [SaveOp.clearPrimary, SaveOp.setPrimary n] := rfl
    have happ : applySaveOps rows
        (save_collection_ops true (o1 :: oldt) (n :: ns)) =
        applySaveOp (applySaveOp ((update_collection (o1 :: oldt)
            (n :: ns)).foldl applyCollectionOp rows) SaveOp.clearPrimary)
          (SaveOp.setPrimary n) := by
      rw [hform, applySaveOps_append, applySaveOps_collection]
      rfl
    have hcv := clearPrimary_values ((update_collection (o1 :: oldt)
      (n :: ns)).foldl applyCollectionOp rows)
    have hcf := clearPrimary_all_false ((update_collection (o1 :: oldt)
      (n :: ns)).foldl applyCollectionOp rows)
    obtain ⟨s1, s2⟩ := setPrimary_spec _ n hcf
      (by rw [hcv]; exact dnd) (by rw [hcv]; exact (dmem _).mpr headmem)
    refine ⟨?_, ?_, ?_, ?_⟩
    · rw [happ]
      exact s1
    · intro t
      rw [happ, s2, hcv]
      exact dmem t
    · rw [happ, s2, hcv]
      exact dnd
    · intro hsame
      rw [hform, update_collection_eq_nil hsame]
      rfl

/-- Witness for C7: rows for items 1 and 2 with the marker on 1's row, saved
with the reordering [2, 1]: afterwards exactly one row carries the marker and
it is 2's row. -/
theorem save_primary_marker_app :
    ((applySaveOps [⟨[1], true⟩, ⟨[2], false⟩]
        (save_collection_ops true [[1], [2]] [[(2 : Nat)], [1]])).filter
      (fun r => r.primary)).map DbRow.values = [[2]] :=
  (save_primary_marker Nat [⟨[1], true⟩, ⟨[2], false⟩] [[1], [2]]
    [[2], [1]] (by decide) (fun _ => Iff.rfl) (by decide)).1

section CodecProofs

theorem foldl_digit_zeros (k : Nat) (a : Nat) :
    List.foldl (fun acc c => acc * 10 + (c.toNat - 48)) a
      (List.replicate k '0') = a * 10 ^ k := by
  induction k generalizing a with
  | zero => simp
  | succ k ih =>
    rw [List.replicate_succ, List.foldl_cons, ih]
    have h0 : '0'.toNat - 48 = 0 := by decide
    rw [h0, Nat.add_zero, pow_succ]
    ring

theorem digitsVal_append_zeros (l : List Char) (k : Nat) :
    digitsVal (l ++ List.replicate k '0') = digitsVal l * 10 ^ k := by
  rw [digitsVal, digitsVal, List.foldl_append]
  exact foldl_digit_zeros k _

theorem parseDigits_all_digits {l : List Char} (h1 : l ≠ [])
    (h2 : ∀ c ∈ l, c.isDigit) : parseDigits l = some (digitsVal l) := by
  rw [parseDigits, if_pos]
  exact ⟨h1, List.all_eq_true.mpr h2⟩

end CodecProofs

/-- C8: For every stored time-of-day text value, decoding splits on `"."`,
parses hours, minutes and seconds from the first part, and, when a fractional
part is present, pads it on the right with zeros to exactly 6 characters
(truncating if longer) before parsing it as microseconds, with microseconds 0
when no fractional part is present; in particular decoding "12:00:00.5"
yields microsecond component 500000, decoding "12:00:00.123456" yields
123456, and decoding "12:00:00" yields 0.  The last conjunct states the
padding rule in closed form: for any non-empty all-digit fractional part, the
microsecond value is the value of its first 6 digits scaled by one trailing
zero per padded position. -/
theorem convert_timeofday_padding :
    convert_timeofday "12:00:00.5" = some ⟨12, 0, 0, 500000⟩ ∧
    convert_timeofday "12:00:00.123456" = some ⟨12, 0, 0, 123456⟩ ∧
    convert_timeofday "12:00:00" = some ⟨12, 0, 0, 0⟩ ∧
    (∀ l : List Char, l ≠ [] → (∀ c ∈ l, c.isDigit) →
      fracToMicroseconds l =
        some (digitsVal (l.take 6) * 10 ^ (6 - min l.length 6))) := by
  refine ⟨by decide, by decide, by decide, ?_⟩
  intro l h1 h2
  rw [fracToMicroseconds, padTo6]
  have hlen : (l.take 6).length = min 6 l.length := List.length_take 6 l
  have htne : l.take 6 ≠ [] := by
    intro he
    rcases List.take_eq_nil_iff.mp he with h | h
    · exact absurd h (by decide)
    · exact h1 h
  have hdig : ∀ c ∈ l.take 6 ++ List.replicate (6 - (l.take 6).length) '0',
      c.isDigit := by
    intro c hc
    rcases List.mem_append.mp hc with hc | hc
    · exact h2 c (List.take_subset 6 l hc)
    · rw [List.eq_of_mem_replicate hc]
      decide
  have hne : l.take 6 ++ List.replicate (6 - (l.take 6).length) '0' ≠ [] := by
    intro he
    rcases List.append_eq_nil.mp he with ⟨h, -⟩
    exact htne h
  rw [parseDigits_all_digits hne hdig, digitsVal_append_zeros, hlen,
    Nat.min_comm]

/-- Witness for C8: the one-digit fractional part "5" is padded to "500000",
i.e. its value 5 is scaled by 10 to the 5th. -/
theorem convert_timeofday_padding_app :
    fracToMicroseconds ['5'] =
      some (digitsVal (['5'].take 6) * 10 ^ (6 - min ['5'].length 6)) :=
  convert_timeofday_padding.2.2.2 ['5'] (by decide) (by decide)

/-- Counterexample to C9: after `db_changed`, a collection that was read
earlier (and therefore cached in `_new_values` by `Collection.__get__`) does
not refetch on the next read: the getter returns the stale cached value 5
without touching the store (third component `false` means no
`_load_collection` call), even though the store now holds 7 — refuting the
claim that every subsequent collection read refetches from the store. -/
theorem db_changed_stale_read_counterexample :
    (collection_get exampleDb 0 "aliases"
      (db_changed exampleClass exampleDb exampleEntity)).2.2 = false ∧
    (collection_get exampleDb 0 "aliases"
      (db_changed exampleClass exampleDb exampleEntity)).1 = 5 ∧
    exampleDb.coll "aliases" = 7 := by
  decide

/-- C9 (amended): For every entity with an identity, `db_changed` preserves
the whole in-memory overlay `_new_values` (in particular all unsaved scalar
edits), reloads the persisted scalar baseline, and discards every
collection's cached baseline from `_db_values`; however only a collection
that was never read or set refetches from the store on its next access — a
collection already present in `_new_values` keeps returning its in-memory
working copy without consulting the store. -/
theorem db_changed_effects (α : Type) [DecidableEq α] (cls : DbClass)
    (db : ExtDb α) (s : DbObjectState α) (i : Nat) (hid : s.id = some i) :
    (db_changed cls db s).newValues = s.newValues ∧
    (db_changed cls db s).id = s.id ∧
    (∀ c ∈ cls.collectionNames, (db_changed cls db s).dbValues c = none) ∧
    (∀ k ∈ cls.scalarKeys, k ∉ cls.collectionNames →
      (db_changed cls db s).dbValues k = some (db.row k)) ∧
    (∀ (c : String) (e : α), s.newValues c = none →
      (collection_get db e c (db_changed cls db s)).2.2 = true ∧
      (collection_get db e c (db_changed cls db s)).1 = db.coll c) := by
  obtain ⟨sid, snew, sdb⟩ := s
  cases hid
  refine ⟨rfl, rfl, ?_, ?_, ?_⟩
  · intro c hc
    show (if c ∈ cls.collectionNames then none else _) = none
    rw [if_pos hc]
  · intro k hk hknc
    show (if k ∈ cls.collectionNames then none
      else if k ∈ cls.scalarKeys then some (db.row k) else sdb k) =
      some (db.row k)
    rw [if_neg hknc, if_pos hk]
  · intro c e hc
    have hmatch : (db_changed cls db ⟨some i, snew, sdb⟩).newValues c =
        none := hc
    rw [collection_get, hmatch]
    exact ⟨rfl, rfl⟩

/-- Witness for C9 (amended): a collection never accessed before does
refetch from the store after `db_changed`. -/
theorem db_changed_effects_app :
    (collection_get exampleDb 0 "other"
      (db_changed exampleClass exampleDb exampleEntity)).2.2 = true ∧
    (collection_get exampleDb 0 "other"
      (db_changed exampleClass exampleDb exampleEntity)).1 =
      exampleDb.coll "other" :=
  (db_changed_effects Nat exampleClass exampleDb exampleEntity 1
    rfl).2.2.2.2 "other" 0 (by decide)

/-- C10: For every entity that already has an identity, calling `save()` when
no scalar field's current value differs from its baseline produces an empty
changed-column set, so the generated UPDATE statement has an empty SET
clause, which the store rejects as malformed — `save()` on an unchanged
persisted entity raises an error instead of being a no-op. -/
theorem save_unchanged_update_rejected (α : Type) [DecidableEq α]
    (table : String) (columns : List String) (s : DbObjectState α)
    (idVal : α)
    (h : ∀ k ∈ columns, ∀ v, s.newValues k = some v →
      s.dbValues k = some v) :
    dirtyColumns columns s = [] ∧
    execUpdate (save_update_stmt table columns s idVal) =
      Except.error "malformed update statement" := by
  have hd : dirtyColumns columns s = [] := by
    rw [dirtyColumns, List.filterMap_eq_nil_iff]
    intro k hk
    cases hv : s.newValues k with
    | none => rfl
    | some v =>
      show (if s.dbValues k = some v then none else some (k, v)) = none
      rw [if_pos (h k hk v hv)]
  refine ⟨hd, ?_⟩
  rw [save_update_stmt, dynamic_update, execUpdate]
  simp [hd]

/-- Witness for C10: a persisted person entity with no pending edits
produces an UPDATE that the store rejects. -/
theorem save_unchanged_update_rejected_app :
    execUpdate (save_update_stmt "people" personColumns
      (⟨some 1, fun _ => none, fun _ => none⟩ : DbObjectState Nat) 1) =
      Except.error "malformed update statement" :=
  (save_unchanged_update_rejected Nat "people" personColumns
    ⟨some 1, fun _ => none, fun _ => none⟩ 1
    (fun _ _ _ hv => Option.noConfusion hv)).2

/-- C1 evaluation (code bug): the insert branch of `DbObject.save` assigns
`self._id = self._db._dynamic_insert(...)`, but `Database._dynamic_insert`
has no return statement, so after saving a newly constructed person with an
assigned name the entity's id is still `None` — even though the INSERT that
was executed did carry the assigned column value — contradicting the claim
(and the repository's own `test_create_person`) that the id is non-null and
usable for reloading. -/
theorem save_new_entity_id_is_none :
    (save_scalar_new "people" personColumns
      (⟨none, setKey (fun _ => none) "first_name_or_nickname" (some 1),
        fun _ => none⟩ : DbObjectState Nat)).1.id = none ∧
    (save_scalar_new "people" personColumns
      (⟨none, setKey (fun _ => none) "first_name_or_nickname" (some 1),
        fun _ => none⟩ : DbObjectState Nat)).2.columnValues =
      [("first_name_or_nickname", 1)] := by
  decide

end Rks
